import Mathlib

/-!
Shallow embedding of `copyapp.py` (CopyApp, a multi-document text/content manager).

Modelled here: the in-memory document store (`CopyAppTUI`) with its
edit/save/find-replace/switch/close operations, the checkpoint pass
(`perform_auto_save`), the concurrent URL fetcher
(`NetworkManager.fetch_multiple_urls`), the toy cipher (`CryptoManager`) and the
language detector (`TextProcessor.detect_language`).

External library calls and environment effects (md5 hashing, base64 transport,
regular-expression search, `str.lower`, filesystem and network I/O, interactive
`input`) are modelled as explicit oracle parameters; everything else is
translated directly from the source.  Fields of `DocumentTab` that no statement
below depends on (timestamps, tag list, `data_raw` bytes mirror, bookmarks, ...)
are omitted from the record.
-/

namespace CopyApp

/-- Python's per-character `str.islower` classification (the Unicode `Lowercase`
property), modelled faithfully on the Latin-1 range; code points above U+00FF
are treated as uncased by this model (nothing below exercises them). -/
def pyIsLowerCode (n : Nat) : Bool :=
  (97 ≤ n && n ≤ 122) || n == 170 || n == 181 || n == 186 ||
  (223 ≤ n && n ≤ 246) || (248 ≤ n && n ≤ 255)

/-- Python's per-character `str.isupper` classification on the Latin-1 range. -/
def pyIsUpperCode (n : Nat) : Bool :=
  (65 ≤ n && n ≤ 90) || (192 ≤ n && n ≤ 214) || (216 ≤ n && n ≤ 222)

/-- Python `str.strip()` (leading/trailing whitespace removal). -/
def pyStrip (s : String) : String :=
  String.mk (((s.data.dropWhile Char.isWhitespace).reverse.dropWhile Char.isWhitespace).reverse)

/-- Word-count scan: `len(content.split())`, the number of maximal
whitespace-free runs. -/
def wordCountAux : List Char → Bool → Nat
  | [], _ => 0
  | c :: cs, inWord =>
    if c.isWhitespace then wordCountAux cs false
    else (if inWord then 0 else 1) + wordCountAux cs true

/-- Python `len(content.split())`. -/
def pyWordCount (s : String) : Nat := wordCountAux s.data false

/-- Python `len(content.split('\n'))`, which is one more than the number of
newline characters. -/
def pyLineCount (s : String) : Nat := 1 + s.data.countP (fun c => c == '\n')

/-- Does the pattern (first argument) start the list (second argument)? -/
def listStartsWith : List Char → List Char → Bool
  | [], _ => true
  | _ :: _, [] => false
  | p :: ps, c :: cs => p == c && listStartsWith ps cs

/-- Python `str.replace` for a non-empty pattern: replace non-overlapping
occurrences, scanning left to right.  The `Nat` argument counts characters
of a just-matched occurrence still to be skipped (the match consumed one
character of it already), making the scan structurally recursive. -/
def replaceGo (pat rep : List Char) : Nat → List Char → List Char
  | _, [] => []
  | Nat.succ k, _ :: cs => replaceGo pat rep k cs
  | 0, c :: cs =>
    if listStartsWith pat (c :: cs) then
      rep ++ replaceGo pat rep (pat.length - 1) cs
    else
      c :: replaceGo pat rep 0 cs

/-- Python `str.count` for a non-empty pattern: the same left-to-right
non-overlapping scan as `replaceGo`. -/
def countGo (pat : List Char) : Nat → List Char → Nat
  | _, [] => 0
  | Nat.succ k, _ :: cs => countGo pat k cs
  | 0, c :: cs =>
    if listStartsWith pat (c :: cs) then
      1 + countGo pat (pat.length - 1) cs
    else
      countGo pat 0 cs

/-- Python `str.replace` (literal, non-regex, all occurrences).  The empty
pattern inserts the replacement at every position, as Python does. -/
def pyReplace (s pat rep : String) : String :=
  if pat.data = [] then
    String.mk (rep.data ++ (s.data.map (fun c => c :: rep.data)).flatten)
  else
    String.mk (replaceGo pat.data rep.data 0 s.data)

/-- Python `str.count` (`len(s) + 1` for the empty pattern). -/
def pyCount (s pat : String) : Nat :=
  if pat.data = [] then s.data.length + 1
  else countGo pat.data 0 s.data

/-- The subset of `DocumentTab` fields the verified claims depend on. -/
structure DocumentTab where
  name : String := "Untitled"
  content : String := ""
  filePath : Option String := none
  modified : Bool := false
  language : String := "text"
  checksum : String := ""
  version : Nat := 1
  wordCount : Nat := 0
  charCount : Nat := 0
  lineCount : Nat := 0
  deriving DecidableEq

/-- `DocumentTab.update_stats`: recomputes char/word/line counts and the
checksum; `hashlib.md5(content.encode()).hexdigest()` is the oracle `hash`. -/
def update_stats (hash : String → String) (d : DocumentTab) : DocumentTab :=
  { d with
    charCount := d.content.length
    wordCount := pyWordCount d.content
    lineCount := pyLineCount d.content
    checksum := hash d.content }

/-- Constructing a `DocumentTab` runs `__post_init__`, which calls
`update_stats`; every other omitted-field initialisation has no model effect. -/
def mkDocument (hash : String → String) (name content : String) (filePath : Option String) : DocumentTab :=
  update_stats hash { name := name, content := content, filePath := filePath }

/-- The document store (`CopyAppTUI`): the ordered open-document list and the
current cursor.  The index is an `Int`, as in Python. -/
structure Store where
  documents : List DocumentTab
  current_doc_index : Int
  deriving DecidableEq

/-- `CopyAppTUI.__init__`: starts with a single fresh default document. -/
def initStore (hash : String → String) : Store :=
  { documents := [mkDocument hash "Untitled" "" none], current_doc_index := 0 }

/-- `CopyAppTUI.get_current_document`: a bounds-checked lookup falling back to
`documents[0]`; `none` models the `IndexError` Python would raise were the
document list empty. -/
def get_current_document (s : Store) : Option DocumentTab :=
  if 0 ≤ s.current_doc_index ∧ s.current_doc_index < s.documents.length then
    s.documents[s.current_doc_index.toNat]?
  else
    s.documents[0]?

/-- The list position `get_current_document` reads (and the mutating
operations write back to, since Python mutates the alias it returned). -/
def currentNat (s : Store) : Nat :=
  if 0 ≤ s.current_doc_index ∧ s.current_doc_index < s.documents.length then
    s.current_doc_index.toNat
  else 0

/-- Mutation of the current document through the alias returned by
`get_current_document` (identity when the document list is empty). -/
def modifyCurrent (s : Store) (f : DocumentTab → DocumentTab) : Store :=
  match get_current_document s with
  | none => s
  | some d => { s with documents := s.documents.set (currentNat s) (f d) }

/-- `CopyAppTUI.edit_document` once the user finished entering `new_content`
(a cancelled edit leaves the store untouched and is modelled by taking no
step).  Note the source sets `content`, `modified` and `data_raw` but does
NOT call `update_stats`. -/
def edit_document (s : Store) (new_content : String) : Store :=
  modifyCurrent s (fun d =>
    if new_content ≠ d.content then
      { d with content := new_content, modified := true }
    else d)

/-- Outcome of `CopyAppTUI.save_file` as reported to the user. -/
inductive SaveResult where
  | saved
  | noTarget
  | ioError
  deriving DecidableEq

/-- `CopyAppTUI.save_file`.  `filename` is the optional command argument,
`prompted` the interactive `input(...)` answer consulted when neither an
argument nor `doc.file_path` exists, `writeOk` the outcome of
`path.write_text` (filesystem oracle) and `basename` models `Path(...).name`. -/
def save_file (basename : String → String) (s : Store) (filename : Option String) (prompted : String) (writeOk : Bool) : Store × SaveResult :=
  match get_current_document s with
  | none => (s, SaveResult.noTarget)
  | some d =>
    let pathOpt : Option String :=
      match filename with
      | some f => some f
      | none =>
        match d.filePath with
        | some p => some p
        | none => if pyStrip prompted = "" then none else some (pyStrip prompted)
    match pathOpt with
    | none => (s, SaveResult.noTarget)
    | some p =>
      if writeOk then
        let d2 : DocumentTab := { d with filePath := some p, name := basename p, modified := false }
        ({ s with documents := s.documents.set (currentNat s) d2 }, SaveResult.saved)
      else (s, SaveResult.ioError)

/-- `CopyAppTUI.replace_in_document`: Python `str.replace` over the whole
content plus `str.count`, committed (and reported) only when the content
actually changed. -/
def replace_in_document (s : Store) (find_text replace_text : String) : Store × Nat :=
  match get_current_document s with
  | none => (s, 0)
  | some d =>
    let new_content := pyReplace d.content find_text replace_text
    if new_content ≠ d.content then
      let d2 : DocumentTab := { d with content := new_content, modified := true }
      ({ s with documents := s.documents.set (currentNat s) d2 }, pyCount d.content find_text)
    else (s, 0)

/-- `CopyAppTUI.open_file`.  `readResult` is the filesystem oracle: `none` when
the path does not exist or reading raises, `some content` for the (lossily
decoded) text. -/
def open_file (hash basename : String → String) (s : Store) (path : String) (readResult : Option String) : Store :=
  match readResult with
  | none => s
  | some content =>
    { documents := s.documents ++ [mkDocument hash (basename path) content (some path)],
      current_doc_index := (s.documents.length : Int) }

/-- The `new` command of `CopyAppTUI.run`. -/
def new_document (hash : String → String) (s : Store) : Store :=
  { documents := s.documents ++ [mkDocument hash ("Untitled-" ++ toString (s.documents.length + 1)) "" none],
    current_doc_index := (s.documents.length : Int) }

/-- `CopyAppTUI.paste_from_clipboard` (the clipboard oracle supplies `content`;
an empty clipboard creates nothing). -/
def paste_from_clipboard (hash : String → String) (s : Store) (content : String) : Store :=
  if content = "" then s
  else
    { documents := s.documents ++ [mkDocument hash ("Clipboard-" ++ toString (s.documents.length + 1)) content none],
      current_doc_index := (s.documents.length : Int) }

/-- `CopyAppTUI.fetch_url`; the network fetch plus HTML-to-text processing is
the oracle `fetched` (`none` models any raised error, caught in the source). -/
def fetch_url (hash : String → String) (s : Store) (url : String) (fetched : Option String) : Store :=
  match fetched with
  | none => s
  | some content =>
    { documents := s.documents ++
        [mkDocument hash ("URL-" ++ ((url.splitOn "/").getLastD "")) content none],
      current_doc_index := (s.documents.length : Int) }

/-- `CopyAppTUI.switch_document`; `parsed` is the `int(index)` parse of the
user argument (`none` on `ValueError`); `idx = int(index) - 1` is inlined. -/
def switch_document (s : Store) (parsed : Option Int) : Store :=
  match parsed with
  | none => s
  | some i =>
    if 0 ≤ i - 1 ∧ i - 1 < s.documents.length then { s with current_doc_index := i - 1 } else s

/-- Snippet insertion into the current document (`manage_snippets`, option 3). -/
def insert_snippet (s : Store) (snippet : String) : Store :=
  modifyCurrent s (fun d => { d with content := d.content ++ "\n" ++ snippet, modified := true })

/-- The 0-based index `close_document` targets: `none` when the argument was
unparseable (`ValueError` path), otherwise the parsed 1-based argument minus
one, or the current index when no argument was given. -/
def resolveCloseIndex (s : Store) (indexArg : Option (Option Int)) : Option Int :=
  match indexArg with
  | some none => none
  | some (some n) => some (n - 1)
  | none => some s.current_doc_index

/-- `CopyAppTUI.close_document`.  `indexArg` is `none` when called with no
argument (close current), `some none` when the argument failed to parse
(`ValueError`), `some (some n)` for a parsed 1-based argument `n`; `confirm`
is the interactive answer to the unsaved-changes prompt (`'y'`). -/
def close_document (s : Store) (indexArg : Option (Option Int)) (confirm : Bool) : Store :=
  if s.documents.length ≤ 1 then s
  else
    match resolveCloseIndex s indexArg with
    | none => s
    | some idx =>
      if 0 ≤ idx then
        match s.documents[idx.toNat]? with
        | none => s
        | some d =>
          if d.modified && !confirm then s
          else
            { documents := s.documents.eraseIdx idx.toNat,
              current_doc_index :=
                if idx ≤ s.current_doc_index then max 0 (s.current_doc_index - 1)
                else s.current_doc_index }
      else s

/-- A backup file written by one checkpoint tick (`autosave_<slot>_<ts>.txt`). -/
structure BackupWrite where
  slot : Nat
  content : String
  deriving DecidableEq

/-- `CopyAppTUI.perform_auto_save`: one checkpoint tick.  Returns the store —
unchanged: the loop reads `doc.modified` and `doc.content` but writes no
document field — together with the backup writes that succeeded; a failed
write (oracle `writeOk`) is swallowed by the bare `except` and the pass
continues with the next document. -/
def perform_auto_save (writeOk : Nat → Bool) (s : Store) : Store × List BackupWrite :=
  (s, s.documents.enum.filterMap (fun p =>
        if p.2.modified && pyStrip p.2.content ≠ "" then
          if writeOk p.1 then some { slot := p.1, content := p.2.content } else none
        else none))

/-- `shift = sum(ord(c) for c in password) % 26` from `CryptoManager`. -/
def passwordShift (password : String) : Nat :=
  (password.data.foldl (fun a c => a + c.toNat) 0) % 26

/-- The per-character forward Caesar shift of `CryptoManager.encrypt_content`:
applied when Python's `islower`/`isupper` holds, mapping into `a`-`z`/`A`-`Z`. -/
def caesar_shift_char (shift : Nat) (c : Char) : Char :=
  if pyIsLowerCode c.toNat then Char.ofNat ((c.toNat - 97 + shift) % 26 + 97)
  else if pyIsUpperCode c.toNat then Char.ofNat ((c.toNat - 65 + shift) % 26 + 65)
  else c

/-- The per-character backward shift of `CryptoManager.decrypt_content`
(Python's `%` on a negative operand is the nonnegative `Int.emod`). -/
def caesar_unshift_char (shift : Nat) (c : Char) : Char :=
  if pyIsLowerCode c.toNat then
    Char.ofNat ((((c.toNat : Int) - 97 - (shift : Int)) % 26 + 97).toNat)
  else if pyIsUpperCode c.toNat then
    Char.ofNat ((((c.toNat : Int) - 65 - (shift : Int)) % 26 + 65).toNat)
  else c

/-- `CryptoManager.encrypt_content`; the oracle `b64encode` models
`base64.b64encode(x.encode()).decode()`, the safe-transport step. -/
def encrypt_content (b64encode : String → String) (content password : String) : String :=
  b64encode (String.mk (content.data.map (caesar_shift_char (passwordShift password))))

/-- `CryptoManager.decrypt_content`; the oracle `b64decode` models
`base64.b64decode(x.encode()).decode()` (base64 plus strict UTF-8 decoding) —
`none` is any raised exception, caught by the bare `except` in the source. -/
def decrypt_content (b64decode : String → Option String) (encrypted password : String) : String :=
  match b64decode encrypted with
  | some decoded => String.mk (decoded.data.map (caesar_unshift_char (passwordShift password)))
  | none => "[Decryption failed]"

/-- One worker of `NetworkManager.fetch_multiple_urls`.  The oracle `outcome`
gives each URL's GET result: `.ok body` a success (body already decoded, with
lossy fallback), `.error e` any raised exception — timeouts included —
carrying Python's `str(e)`. -/
def fetch_single (outcome : String → Except String String) (url : String) : String × String :=
  match outcome url with
  | Except.ok body => (url, body)
  | Except.error e => (url, "Error: " ++ e)

/-- Python `dict` assignment `results[url] = content`: update in place when the
key exists, append otherwise (insertion order preserved). -/
def dictInsert : List (String × String) → String × String → List (String × String)
  | [], kv => [kv]
  | (k, v) :: rest, kv => if k = kv.1 then (k, kv.2) :: rest else (k, v) :: dictInsert rest kv

/-- Python `dict` lookup on the association-list model. -/
def dictLookup (key : String) : List (String × String) → Option String
  | [] => none
  | (k, v) :: rest => if k = key then some v else dictLookup key rest

/-- `NetworkManager.fetch_multiple_urls`: submits one future per input URL and
writes every completed result — success or captured error — into the results
dict.  A URL's outcome is a deterministic oracle value, so the unspecified
`as_completed` completion order cannot change the final dict; the fold is
therefore taken in input order. -/
def fetch_multiple_urls (outcome : String → Except String String) (urls : List String) : List (String × String) :=
  urls.foldl (fun results url => dictInsert results (fetch_single outcome url)) []

/-- The fixed, ordered language table of `TextProcessor.detect_language`
(Python 3.7+ dicts iterate in insertion order). -/
def language_patterns : List (String × List String) := [
  ("python", ["#!/usr/bin/env python", "import \\w+", "def \\w+\\(", "class \\w+:"]),
  ("javascript", ["function \\w+\\(", "const \\w+", "=> \x7b", "console\\.log"]),
  ("html", ["<html>", "<div", "<script>", "<!DOCTYPE"]),
  ("css", ["\\w+\\s*\x7b", "@media", "#\\w+", "\\.\\w+"]),
  ("markdown", ["^#+\\s", "\\[.*\\]\\(.*\\)", "^\\*\\s", "^-\\s"]),
  ("json", ["^\\s*\x7b", "\"\\w+\"\\s*:", "\\[\\s*\x7b"]),
  ("xml", ["<\\?xml", "<\\w+[^>]*>", "</\\w+>"]),
  ("sql", ["SELECT\\s+", "INSERT\\s+INTO", "UPDATE\\s+", "CREATE\\s+TABLE"]),
  ("bash", ["#!/bin/bash", "#!/bin/sh", "\\$\\w+", "if \\["])]

/-- Per-language scores: for each table entry, the number of its patterns that
`re.search` (oracle `search`, `MULTILINE`) finds in the lowered content
(`lower` models Python `str.lower`). -/
def language_scores (search : String → String → Bool) (lower : String → String) (content : String) : List (String × Nat) :=
  language_patterns.map (fun p => (p.1, (p.2.filter (fun pat => search pat (lower content))).length))

/-- Python `max(items, key=lambda x: x[1])` over a nonempty list: the fold
keeps the incumbent on ties, so the first maximal element wins. -/
def pickBest (x : String × Nat) (xs : List (String × Nat)) : String × Nat :=
  xs.foldl (fun best y => if y.2 > best.2 then y else best) x

/-- Python `max(scores.values())`. -/
def maxValue (x : String × Nat) (xs : List (String × Nat)) : Nat :=
  xs.foldl (fun m y => Nat.max m y.2) x.2

/-- `TextProcessor.detect_language`.  The `[]` branch is unreachable: the
pattern table is a nonempty literal. -/
def detect_language (search : String → String → Bool) (lower : String → String) (content : String) : String :=
  match language_scores search lower content with
  | [] => "text"
  | x :: xs => if maxValue x xs > 0 then (pickBest x xs).1 else "text"

/-- The specification's description of `detectLanguage`, written from its words
for refinement: "returns the language with the highest score, defaulting to a
generic text tag if every score is zero; ties broken by the fixed table
iteration order, first entry wins". -/
def detectLanguageSpec (search : String → String → Bool) (lower : String → String) (content : String) : String :=
  let scores := language_scores search lower content
  let m := (scores.map (fun p => p.2)).foldr Nat.max 0
  if m = 0 then "text"
  else
    match scores.find? (fun p => p.2 == m) with
    | some p => p.1
    | none => "text"

/-- The value `fetch_multiple_urls` stores for a URL (body on success,
`"Error: " ++ str(e)` on any per-URL failure, timeouts included). -/
def fetchValue (outcome : String → Except String String) (url : String) : String :=
  (fetch_single outcome url).2

/-- Key list of the dict model (`results.keys()`, insertion-ordered). -/
def dictKeys (d : List (String × String)) : List String :=
  d.map Prod.fst

/-- Concrete single-document store with a modified, file-backed document
(used to evaluate the save path at a specific input). -/
def sampleSavedStore : Store :=
  { documents := [{ name := "notes.txt", content := "draft", filePath := some "notes.txt", modified := true }],
    current_doc_index := 0 }

/-- Concrete two-document store whose second document is modified (used to
evaluate the close path at a specific input). -/
def sampleTwoDocStore : Store :=
  { documents := [{ name := "a.txt" }, { name := "b.txt", content := "x", modified := true }],
    current_doc_index := 1 }

/-- Concrete store holding the spec's replace example document. -/
def exampleReplaceStore : Store :=
  { documents := [mkDocument id "doc" "foo foo baz" none], current_doc_index := 0 }

/-- Store states reachable through the interactive loop (`CopyAppTUI.run`), the
GUI wrapper built on the same backend, and the checkpoint worker, starting
from `CopyAppTUI.__init__`. -/
inductive Reachable (hash basename : String → String) : Store → Prop where
  | init : Reachable hash basename (initStore hash)
  | step_open : ∀ s path r, Reachable hash basename s →
      Reachable hash basename (open_file hash basename s path r)
  | step_new : ∀ s, Reachable hash basename s →
      Reachable hash basename (new_document hash s)
  | step_paste : ∀ s c, Reachable hash basename s →
      Reachable hash basename (paste_from_clipboard hash s c)
  | step_fetch : ∀ s u r, Reachable hash basename s →
      Reachable hash basename (fetch_url hash s u r)
  | step_switch : ∀ s p, Reachable hash basename s →
      Reachable hash basename (switch_document s p)
  | step_close : ∀ s a c, Reachable hash basename s →
      Reachable hash basename (close_document s a c)
  | step_edit : ∀ s c, Reachable hash basename s →
      Reachable hash basename (edit_document s c)
  | step_replace : ∀ s f r, Reachable hash basename s →
      Reachable hash basename ((replace_in_document s f r).1)
  | step_snippet : ∀ s t, Reachable hash basename s →
      Reachable hash basename (insert_snippet s t)
  | step_save : ∀ s f p ok, Reachable hash basename s →
      Reachable hash basename ((save_file basename s f p ok).1)
  | step_autosave : ∀ s w, Reachable hash basename s →
      Reachable hash basename ((perform_auto_save w s).1)

theorem get_current_document_eq (s : Store) :
    get_current_document s = s.documents[currentNat s]? := by
  unfold get_current_document currentNat
  split <;> rfl

theorem currentNat_lt_of_get (s : Store) (d : DocumentTab)
    (h : get_current_document s = some d) : currentNat s < s.documents.length := by
  rw [get_current_document_eq] at h
  exact (List.getElem?_eq_some.mp h).1

theorem currentNat_set_docs (s : Store) (i : Nat) (d2 : DocumentTab) :
    currentNat { s with documents := s.documents.set i d2 } = currentNat s := by
  unfold currentNat
  simp

theorem get_current_set_docs (s : Store) (d2 : DocumentTab)
    (h : currentNat s < s.documents.length) :
    get_current_document { s with documents := s.documents.set (currentNat s) d2 } = some d2 := by
  rw [get_current_document_eq, currentNat_set_docs]
  exact List.getElem?_set_self h

theorem modifyCurrent_getElem (s : Store) (f : DocumentTab → DocumentTab) (j : Nat) :
    (modifyCurrent s f).documents[j]? = s.documents[j]? ∨
    ∃ d, s.documents[j]? = some d ∧ (modifyCurrent s f).documents[j]? = some (f d) := by
  unfold modifyCurrent
  cases h : get_current_document s with
  | none => left; rfl
  | some d =>
    have hlen := currentNat_lt_of_get s d h
    rw [get_current_document_eq] at h
    by_cases hj : currentNat s = j
    · right
      refine ⟨d, hj ▸ h, ?_⟩
      simpa using hj ▸ List.getElem?_set_self (a := f d) hlen
    · left
      simpa using List.getElem?_set_ne hj

theorem mem_modifyCurrent (s : Store) (f : DocumentTab → DocumentTab) (d' : DocumentTab)
    (h : d' ∈ (modifyCurrent s f).documents) :
    d' ∈ s.documents ∨ ∃ d, d ∈ s.documents ∧ d' = f d := by
  unfold modifyCurrent at h
  cases hg : get_current_document s with
  | none => rw [hg] at h; exact Or.inl h
  | some d =>
    rw [hg] at h
    rcases List.mem_or_eq_of_mem_set h with h1 | h2
    · exact Or.inl h1
    · right
      refine ⟨d, ?_, h2⟩
      rw [get_current_document_eq] at hg
      exact List.getElem?_mem hg

theorem length_modifyCurrent (s : Store) (f : DocumentTab → DocumentTab) :
    (modifyCurrent s f).documents.length = s.documents.length := by
  unfold modifyCurrent
  cases get_current_document s <;> simp

theorem save_file_cases (basename : String → String) (s : Store) (fn : Option String)
    (pr : String) (ok : Bool) :
    save_file basename s fn pr ok = (s, SaveResult.noTarget) ∨
    save_file basename s fn pr ok = (s, SaveResult.ioError) ∨
    ∃ d p, get_current_document s = some d ∧
      save_file basename s fn pr ok =
        ({ s with documents := s.documents.set (currentNat s) ({ d with filePath := some p, name := basename p, modified := false }) }, SaveResult.saved) := by
  unfold save_file
  cases hg : get_current_document s with
  | none => left; rfl
  | some d =>
    cases hfn : fn with
    | some f =>
      cases ok
      · right; left; rfl
      · right; right; exact ⟨d, f, rfl, rfl⟩
    | none =>
      cases hfp : d.filePath with
      | some p =>
        cases ok
        · right; left; simp [hfp]
        · right; right; exact ⟨d, p, rfl, by simp [hfp]⟩
      | none =>
        by_cases hpr : pyStrip pr = ""
        · left; simp [hfp, hpr]
        · cases ok
          · right; left; simp [hfp, hpr]
          · right; right; exact ⟨d, pyStrip pr, rfl, by simp [hfp, hpr]⟩

theorem save_file_getElem (basename : String → String) (s : Store) (fn : Option String)
    (pr : String) (ok : Bool) (j : Nat) :
    ((save_file basename s fn pr ok).1).documents[j]? = s.documents[j]? ∨
    ∃ d p, s.documents[j]? = some d ∧
      ((save_file basename s fn pr ok).1).documents[j]? = some ({ d with filePath := some p, name := basename p, modified := false }) := by
  rcases save_file_cases basename s fn pr ok with h | h | ⟨d, p, hg, h⟩
  · left; rw [h]
  · left; rw [h]
  · have hlen := currentNat_lt_of_get s d hg
    rw [get_current_document_eq] at hg
    by_cases hj : currentNat s = j
    · right
      refine ⟨d, p, hj ▸ hg, ?_⟩
      rw [h]
      simpa using hj ▸ List.getElem?_set_self hlen
    · left
      rw [h]
      simpa using List.getElem?_set_ne hj

theorem mem_save_file (basename : String → String) (s : Store) (fn : Option String)
    (pr : String) (ok : Bool) (d' : DocumentTab)
    (h : d' ∈ ((save_file basename s fn pr ok).1).documents) :
    d' ∈ s.documents ∨
    ∃ d p, d ∈ s.documents ∧ d' = { d with filePath := some p, name := basename p, modified := false } := by
  rcases save_file_cases basename s fn pr ok with hc | hc | ⟨d, p, hg, hc⟩
  · rw [hc] at h; exact Or.inl h
  · rw [hc] at h; exact Or.inl h
  · rw [hc] at h
    rcases List.mem_or_eq_of_mem_set h with h1 | h2
    · exact Or.inl h1
    · right
      refine ⟨d, p, ?_, h2⟩
      rw [get_current_document_eq] at hg
      exact List.getElem?_mem hg

theorem replace_in_document_cases (s : Store) (ft rt : String) :
    (replace_in_document s ft rt = (s, 0) ∧
      ∀ d, get_current_document s = some d → pyReplace d.content ft rt = d.content) ∨
    ∃ d, get_current_document s = some d ∧ pyReplace d.content ft rt ≠ d.content ∧
      replace_in_document s ft rt =
        ({ s with documents := s.documents.set (currentNat s) ({ d with content := pyReplace d.content ft rt, modified := true }) }, pyCount d.content ft) := by
  cases hg : get_current_document s with
  | none =>
    left
    refine ⟨by simp [replace_in_document, hg], fun d hd => ?_⟩
    exact Option.noConfusion hd
  | some d =>
    by_cases hne : pyReplace d.content ft rt ≠ d.content
    · right; exact ⟨d, rfl, hne, by simp [replace_in_document, hg, hne]⟩
    · left
      refine ⟨by simp [replace_in_document, hg, hne], fun d2 hd2 => ?_⟩
      injection hd2 with hd2
      rw [← hd2]
      exact not_ne_iff.mp hne

theorem mem_replace_in_document (s : Store) (ft rt : String) (d' : DocumentTab)
    (h : d' ∈ ((replace_in_document s ft rt).1).documents) :
    d' ∈ s.documents ∨
    ∃ d, d ∈ s.documents ∧ d' = { d with content := pyReplace d.content ft rt, modified := true } := by
  rcases replace_in_document_cases s ft rt with ⟨hc, _⟩ | ⟨d, hg, _, hc⟩
  · rw [hc] at h; exact Or.inl h
  · rw [hc] at h
    rcases List.mem_or_eq_of_mem_set h with h1 | h2
    · exact Or.inl h1
    · right
      refine ⟨d, ?_, h2⟩
      rw [get_current_document_eq] at hg
      exact List.getElem?_mem hg

theorem mem_close_document (s : Store) (a : Option (Option Int)) (c : Bool) (d : DocumentTab)
    (h : d ∈ (close_document s a c).documents) : d ∈ s.documents := by
  unfold close_document at h
  split at h
  · exact h
  · split at h
    · exact h
    · split at h
      · split at h
        · exact h
        · split at h
          · exact h
          · exact (List.eraseIdx_sublist _ _).mem h
      · exact h

/-- Documents are only ever created by `DocumentTab(...)` construction with the
default `version=1`, and no store operation writes the `version` field. -/
theorem reachable_version_eq_one (hash basename : String → String) (s : Store)
    (h : Reachable hash basename s) : ∀ d ∈ s.documents, d.version = 1 := by
  induction h with
  | init =>
    intro d hd
    rcases List.mem_singleton.mp hd with rfl
    rfl
  | step_open s path r _ ih =>
    intro d hd
    unfold open_file at hd
    cases r with
    | none => exact ih d hd
    | some content =>
      rcases List.mem_append.mp hd with h1 | h2
      · exact ih d h1
      · rcases List.mem_singleton.mp h2 with rfl; rfl
  | step_new s _ ih =>
    intro d hd
    unfold new_document at hd
    rcases List.mem_append.mp hd with h1 | h2
    · exact ih d h1
    · rcases List.mem_singleton.mp h2 with rfl; rfl
  | step_paste s c _ ih =>
    intro d hd
    unfold paste_from_clipboard at hd
    split at hd
    · exact ih d hd
    · rcases List.mem_append.mp hd with h1 | h2
      · exact ih d h1
      · rcases List.mem_singleton.mp h2 with rfl; rfl
  | step_fetch s u r _ ih =>
    intro d hd
    unfold fetch_url at hd
    cases r with
    | none => exact ih d hd
    | some content =>
      rcases List.mem_append.mp hd with h1 | h2
      · exact ih d h1
      · rcases List.mem_singleton.mp h2 with rfl; rfl
  | step_switch s p _ ih =>
    intro d hd
    cases p with
    | none => exact ih d hd
    | some i =>
      by_cases hb : 0 ≤ i - 1 ∧ i - 1 < (s.documents.length : Int)
      · simp only [switch_document, if_pos hb] at hd
        exact ih d hd
      · simp only [switch_document, if_neg hb] at hd
        exact ih d hd
  | step_close s a c _ ih =>
    intro d hd
    exact ih d (mem_close_document s a c d hd)
  | step_edit s c _ ih =>
    intro d hd
    rcases mem_modifyCurrent _ _ d hd with h1 | ⟨d0, hd0, rfl⟩
    · exact ih d h1
    · split
      · exact ih d0 hd0
      · exact ih d0 hd0
  | step_replace s f r _ ih =>
    intro d hd
    rcases mem_replace_in_document s f r d hd with h1 | ⟨d0, hd0, rfl⟩
    · exact ih d h1
    · exact ih d0 hd0
  | step_snippet s t _ ih =>
    intro d hd
    rcases mem_modifyCurrent _ _ d hd with h1 | ⟨d0, hd0, rfl⟩
    · exact ih d h1
    · exact ih d0 hd0
  | step_save s f p ok _ ih =>
    intro d hd
    rcases mem_save_file basename s f p ok d hd with h1 | ⟨d0, q, hd0, rfl⟩
    · exact ih d h1
    · exact ih d0 hd0
  | step_autosave s w _ ih =>
    intro d hd
    exact ih d hd

theorem switch_document_documents (s : Store) (p : Option Int) :
    (switch_document s p).documents = s.documents := by
  cases p with
  | none => rfl
  | some i =>
    show (if 0 ≤ i - 1 ∧ i - 1 < (s.documents.length : Int) then { s with current_doc_index := i - 1 } else s).documents = s.documents
    split <;> rfl

/-- C1 is false on the code: starting from the initial store (a fresh document
with content `""` whose checksum was computed by `__post_init__`), one edit to
`"b"` leaves `checksum` at the hash of the OLD content — `edit_document` never
calls `update_stats`.  The md5 oracle is instantiated with `id`; the real md5
likewise maps `""` and `"b"` to different digests. -/
theorem edit_leaves_checksum_stale_cex :
    Option.map (fun d => d.content) (get_current_document (edit_document (initStore id) "b")) = some "b"
    ∧ Option.map (fun d => d.checksum) (get_current_document (edit_document (initStore id) "b")) = some (id "")
    ∧ ¬ Option.map (fun d => d.checksum) (get_current_document (edit_document (initStore id) "b"))
        = Option.map (fun d => id d.content) (get_current_document (edit_document (initStore id) "b")) := by
  decide

/-- C1 (amended): the checksum equals the hash of the content as of the last
`update_stats` call — document construction computes `checksum = hash content`,
but `edit_document` and `save_file` leave every document's checksum untouched,
so immediately after an edit that changes the content the checksum is stale. -/
theorem checksum_policy (hash basename : String → String) (name content : String)
    (fp : Option String) (d0 : DocumentTab) (s : Store) (new : String)
    (fn : Option String) (pr : String) (ok : Bool) (j : Nat) :
    (mkDocument hash name content fp).checksum = hash content
    ∧ (update_stats hash d0).checksum = hash d0.content
    ∧ Option.map (fun d => d.checksum) ((edit_document s new).documents[j]?)
        = Option.map (fun d => d.checksum) (s.documents[j]?)
    ∧ Option.map (fun d => d.checksum) (((save_file basename s fn pr ok).1).documents[j]?)
        = Option.map (fun d => d.checksum) (s.documents[j]?) := by
  refine ⟨rfl, rfl, ?_, ?_⟩
  · rcases modifyCurrent_getElem s
      (fun d => if new ≠ d.content then { d with content := new, modified := true } else d) j with
      h | ⟨d, hd, h⟩
    · rw [show (edit_document s new).documents = (modifyCurrent s _).documents from rfl, h]
    · rw [show (edit_document s new).documents = (modifyCurrent s _).documents from rfl, h, hd]
      by_cases hne : new ≠ d.content <;> simp [hne]
  · rcases save_file_getElem basename s fn pr ok j with h | ⟨d, p, hd, h⟩
    · rw [h]
    · simp [h, hd]

/-- C3 is false on the code: a successful save (`SaveResult.saved`) leaves the
version counter at 1 — `save_file` sets `file_path`, `name` and `modified`
but never increments `version`. -/
theorem save_does_not_increment_version_cex :
    (save_file id sampleSavedStore none "" true).2 = SaveResult.saved
    ∧ Option.map (fun d => d.version) (get_current_document ((save_file id sampleSavedStore none "" true).1)) = some 1
    ∧ ¬ Option.map (fun d => d.version) (get_current_document ((save_file id sampleSavedStore none "" true).1)) = some 2 := by
  decide

/-- C3 (amended): the version counter is never incremented at all — neither by
a successful save nor by an in-memory edit: in every reachable store every
document's `version` equals its initial value 1. -/
theorem version_constant (hash basename : String → String) (s : Store)
    (h : Reachable hash basename s) :
    (∀ d ∈ s.documents, d.version = 1)
    ∧ ∀ (fn : Option String) (pr : String) (ok : Bool) (d : DocumentTab),
        d ∈ ((save_file basename s fn pr ok).1).documents → d.version = 1 := by
  refine ⟨reachable_version_eq_one hash basename s h, fun fn pr ok d hd => ?_⟩
  exact reachable_version_eq_one hash basename _ (Reachable.step_save s fn pr ok h) d hd

/-- Witness for `version_constant`: the initial store's document has version 1. -/
theorem version_constant_witness :
    (mkDocument id "Untitled" "" none).version = 1 :=
  (version_constant id id (initStore id) Reachable.init).1
    (mkDocument id "Untitled" "" none) (by decide)

/-- C4: a checkpoint tick (`perform_auto_save`) returns the store unchanged —
it reads `doc.modified` and `doc.content` to decide what to back up, but
writes no document field, so every document's modified flag (and everything
else in the store) is exactly as before the tick, whether or not any backup
write succeeded. -/
theorem auto_save_preserves_modified (writeOk : Nat → Bool) (s : Store) (j : Nat) :
    (perform_auto_save writeOk s).1 = s
    ∧ Option.map (fun d => d.modified) (((perform_auto_save writeOk s).1).documents[j]?)
        = Option.map (fun d => d.modified) (s.documents[j]?) :=
  ⟨rfl, rfl⟩

/-- C2: a successful save clears the current document's modified flag; a save
that fails on I/O (`ioError`, reported to the caller) or aborts for lack of a
target leaves the store — in particular the in-memory content and every
modified flag — exactly unchanged; and no operation other than `save_file`
ever turns a document's modified flag from true to false: edit, replace and
snippet insertion either keep a document intact or set its flag to true,
switching and checkpoint ticks change no document, creations (open, new,
paste, URL fetch) leave all existing positions intact, and close only ever
removes documents. -/
theorem save_modified_contract (hash basename : String → String) (s : Store)
    (fn : Option String) (pr : String) (ok : Bool)
    (new ft rt snip path url : String) (rr fr : Option String)
    (parsed : Option Int) (a : Option (Option Int)) (c : Bool) (w : Nat → Bool) (j : Nat) :
    ((save_file basename s fn pr ok).2 = SaveResult.saved →
      Option.map (fun d => d.modified) (get_current_document ((save_file basename s fn pr ok).1)) = some false)
    ∧ ((save_file basename s fn pr ok).2 = SaveResult.ioError → (save_file basename s fn pr ok).1 = s)
    ∧ ((save_file basename s fn pr ok).2 = SaveResult.noTarget → (save_file basename s fn pr ok).1 = s)
    ∧ (∀ d', d' ∈ (edit_document s new).documents → d' ∈ s.documents ∨ d'.modified = true)
    ∧ (∀ d', d' ∈ ((replace_in_document s ft rt).1).documents → d' ∈ s.documents ∨ d'.modified = true)
    ∧ (∀ d', d' ∈ (insert_snippet s snip).documents → d' ∈ s.documents ∨ d'.modified = true)
    ∧ (perform_auto_save w s).1 = s
    ∧ (switch_document s parsed).documents = s.documents
    ∧ (∀ d', d' ∈ (close_document s a c).documents → d' ∈ s.documents)
    ∧ (j < s.documents.length → (open_file hash basename s path rr).documents[j]? = s.documents[j]?)
    ∧ (j < s.documents.length → (new_document hash s).documents[j]? = s.documents[j]?)
    ∧ (j < s.documents.length → (paste_from_clipboard hash s snip).documents[j]? = s.documents[j]?)
    ∧ (j < s.documents.length → (fetch_url hash s url fr).documents[j]? = s.documents[j]?) := by
  refine ⟨?_, ?_, ?_, ?_, ?_, ?_, rfl, switch_document_documents s parsed,
    fun d' => mem_close_document s a c d', ?_, ?_, ?_, ?_⟩
  · intro hs
    rcases save_file_cases basename s fn pr ok with h | h | ⟨d, p, hg, h⟩
    · rw [h] at hs; cases hs
    · rw [h] at hs; cases hs
    · rw [h]
      have hlen := currentNat_lt_of_get s d hg
      rw [get_current_set_docs s _ hlen]
      rfl
  · intro hs
    rcases save_file_cases basename s fn pr ok with h | h | ⟨d, p, hg, h⟩
    · rw [h] at hs; cases hs
    · rw [h]
    · rw [h] at hs; cases hs
  · intro hs
    rcases save_file_cases basename s fn pr ok with h | h | ⟨d, p, hg, h⟩
    · rw [h]
    · rw [h] at hs; cases hs
    · rw [h] at hs; cases hs
  · intro d' hd'
    rcases mem_modifyCurrent s _ d' hd' with h1 | ⟨d, hd, rfl⟩
    · exact Or.inl h1
    · by_cases hne : new ≠ d.content
      · right; simp [hne]
      · left; simpa [hne] using hd
  · intro d' hd'
    rcases mem_replace_in_document s ft rt d' hd' with h1 | ⟨d, hd, rfl⟩
    · exact Or.inl h1
    · right; rfl
  · intro d' hd'
    rcases mem_modifyCurrent s _ d' hd' with h1 | ⟨d, hd, rfl⟩
    · exact Or.inl h1
    · right; rfl
  · intro hj
    cases rr with
    | none => rfl
    | some content => exact List.getElem?_append_left hj
  · intro hj
    exact List.getElem?_append_left hj
  · intro hj
    by_cases hc : snip = ""
    · simp [paste_from_clipboard, hc]
    · simp only [paste_from_clipboard, if_neg hc]
      exact List.getElem?_append_left hj
  · intro hj
    cases fr with
    | none => rfl
    | some content => exact List.getElem?_append_left hj

/-- Witness for `save_modified_contract`: at `sampleSavedStore` a successful
save clears the flag, and a failed write leaves the store unchanged. -/
theorem save_modified_contract_witness :
    Option.map (fun d => d.modified) (get_current_document ((save_file id sampleSavedStore none "" true).1)) = some false
    ∧ (save_file id sampleSavedStore none "" false).1 = sampleSavedStore := by
  constructor
  · exact (save_modified_contract id id sampleSavedStore none "" true "x" "x" "x" "x" "x" "x"
      none none none none false (fun _ => false) 0).1 (by decide)
  · exact (save_modified_contract id id sampleSavedStore none "" false "x" "x" "x" "x" "x" "x"
      none none none none false (fun _ => false) 0).2.1 (by decide)

/-- C9: `close_document` removes nothing when only one document remains, and
when the targeted document is modified it removes nothing unless the caller
explicitly confirmed — unsaved content is never silently discarded. -/
theorem close_document_contract (s : Store) (a : Option (Option Int)) (c : Bool)
    (i : Int) (d : DocumentTab) :
    (s.documents.length ≤ 1 → close_document s a c = s)
    ∧ (resolveCloseIndex s a = some i → 0 ≤ i → s.documents[i.toNat]? = some d →
        d.modified = true → c = false → close_document s a c = s) := by
  constructor
  · intro h
    unfold close_document
    rw [if_pos h]
  · intro hres hge hget hmod hc
    by_cases hl : s.documents.length ≤ 1
    · unfold close_document; rw [if_pos hl]
    · simp [close_document, hl, hres, hge, hget, hmod, hc]

/-- Witness for `close_document_contract`: the single-document store is
untouched, and so is a two-document store whose modified target was not
confirmed for closing. -/
theorem close_document_contract_witness :
    close_document sampleSavedStore none true = sampleSavedStore
    ∧ close_document sampleTwoDocStore (some (some 2)) false = sampleTwoDocStore := by
  constructor
  · exact (close_document_contract sampleSavedStore none true 0 {}).1 (by decide)
  · exact (close_document_contract sampleTwoDocStore (some (some 2)) false 1
      ({ name := "b.txt", content := "x", modified := true })).2
      (by decide) (by decide) (by decide) (by decide) (by decide)

theorem close_document_ne_nil (s : Store) (a : Option (Option Int)) (c : Bool)
    (h : s.documents ≠ []) : (close_document s a c).documents ≠ [] := by
  unfold close_document
  split
  · exact h
  next hlen =>
    split
    · exact h
    next i hres =>
      split
      · split
        · exact h
        next d heq =>
          split
          · exact h
          · have hlt : i.toNat < s.documents.length := (List.getElem?_eq_some.mp heq).1
            have hle := List.length_eraseIdx_add_one hlt
            intro hnil
            rw [show ({ documents := s.documents.eraseIdx i.toNat, current_doc_index := if i ≤ s.current_doc_index then max 0 (s.current_doc_index - 1) else s.current_doc_index } : Store).documents = s.documents.eraseIdx i.toNat from rfl] at hnil
            have h0 := congrArg List.length hnil
            rw [List.length_nil] at h0
            omega
      · exact h

theorem ne_nil_modifyCurrent (s : Store) (f : DocumentTab → DocumentTab)
    (h : s.documents ≠ []) : (modifyCurrent s f).documents ≠ [] := by
  intro hnil
  apply h
  have hl := length_modifyCurrent s f
  rw [hnil] at hl
  exact List.length_eq_zero.mp hl.symm

theorem reachable_documents_ne_nil (hash basename : String → String) (s : Store)
    (h : Reachable hash basename s) : s.documents ≠ [] := by
  induction h with
  | init => simp [initStore]
  | step_open s path r _ ih =>
    cases r with
    | none => exact ih
    | some content => simp [open_file]
  | step_new s _ ih => simp [new_document]
  | step_paste s c _ ih =>
    by_cases hc : c = ""
    · simpa [paste_from_clipboard, hc] using ih
    · simp [paste_from_clipboard, hc]
  | step_fetch s u r _ ih =>
    cases r with
    | none => exact ih
    | some content => simp [fetch_url]
  | step_switch s p _ ih =>
    rw [switch_document_documents]
    exact ih
  | step_close s a c _ ih => exact close_document_ne_nil s a c ih
  | step_edit s c _ ih => exact ne_nil_modifyCurrent s _ ih
  | step_replace s f r _ ih =>
    rcases replace_in_document_cases s f r with ⟨hc, _⟩ | ⟨d, _, _, hc⟩
    · rw [hc]; exact ih
    · rw [hc]
      intro hnil
      apply ih
      simpa using congrArg List.length hnil
  | step_snippet s t _ ih => exact ne_nil_modifyCurrent s _ ih
  | step_save s f p ok _ ih =>
    rcases save_file_cases basename s f p ok with hc | hc | ⟨d, q, _, hc⟩
    · rw [hc]; exact ih
    · rw [hc]; exact ih
    · rw [hc]
      intro hnil
      apply ih
      simpa using congrArg List.length hnil
  | step_autosave s w _ ih => exact ih

/-- C10: every reachable store holds at least one document (the store starts
with one and close refuses to remove the last), and `get_current_document` is
total there; moreover whenever the cursor is outside `[0, len)` the lookup
falls back to `documents[0]` rather than failing. -/
theorem store_nonempty_current_total (hash basename : String → String) (s : Store)
    (h : Reachable hash basename s) :
    s.documents ≠ []
    ∧ (get_current_document s).isSome = true
    ∧ (¬ (0 ≤ s.current_doc_index ∧ s.current_doc_index < s.documents.length) →
        get_current_document s = s.documents[0]?) := by
  have hne := reachable_documents_ne_nil hash basename s h
  refine ⟨hne, ?_, ?_⟩
  · rw [get_current_document_eq]
    have hlt : currentNat s < s.documents.length := by
      unfold currentNat
      split
      next hin => omega
      next => exact List.length_pos.mpr hne
    rw [List.getElem?_eq_getElem hlt]
    rfl
  · intro hng
    unfold get_current_document
    rw [if_neg hng]

/-- Witness for `store_nonempty_current_total` at the initial store. -/
theorem store_nonempty_current_total_witness :
    (initStore id).documents ≠ []
    ∧ (get_current_document (initStore id)).isSome = true := by
  have H := store_nonempty_current_total id id (initStore id) Reachable.init
  exact ⟨H.1, H.2.1⟩

theorem fetch_single_fst (outcome : String → Except String String) (u : String) :
    (fetch_single outcome u).1 = u := by
  unfold fetch_single
  cases outcome u <;> rfl

theorem dictLookup_dictInsert (d : List (String × String)) (kv : String × String) (key : String) :
    dictLookup key (dictInsert d kv) = if kv.1 = key then some kv.2 else dictLookup key d := by
  obtain ⟨a, b⟩ := kv
  induction d with
  | nil => simp [dictInsert, dictLookup]
  | cons p rest ih =>
    obtain ⟨k, v⟩ := p
    by_cases hk : k = a
    · subst hk
      by_cases hkey : k = key
      · subst hkey
        simp [dictInsert, dictLookup]
      · simp [dictInsert, dictLookup, hkey]
    · by_cases hkey : k = key
      · subst hkey
        have hak : ¬ a = k := fun hh => hk hh.symm
        simp [dictInsert, dictLookup, hk, hak]
      · simp [dictInsert, dictLookup, hk, hkey, ih]

theorem dictKeys_dictInsert (d : List (String × String)) (kv : String × String) :
    dictKeys (dictInsert d kv) =
      if kv.1 ∈ dictKeys d then dictKeys d else dictKeys d ++ [kv.1] := by
  obtain ⟨a, b⟩ := kv
  induction d with
  | nil => simp [dictInsert, dictKeys]
  | cons p rest ih =>
    obtain ⟨k, v⟩ := p
    by_cases hk : k = a
    · subst hk
      simp [dictInsert, dictKeys]
    · have hak : ¬ a = k := fun hh => hk hh.symm
      simp only [dictInsert, dictKeys, List.map_cons, if_neg hk] at ih ⊢
      rw [ih]
      by_cases hmem : a ∈ List.map Prod.fst rest
      · simp [hmem, List.mem_cons, hak]
      · simp [hmem, List.mem_cons, hak]

theorem dictKeys_nodup_dictInsert (d : List (String × String)) (kv : String × String)
    (h : (dictKeys d).Nodup) : (dictKeys (dictInsert d kv)).Nodup := by
  rw [dictKeys_dictInsert]
  split
  · exact h
  next hmem => simp [List.nodup_append, h, hmem]

theorem dictLookup_fetch_fold (outcome : String → Except String String) (urls : List String)
    (acc : List (String × String)) (key : String) :
    dictLookup key (urls.foldl (fun r u => dictInsert r (fetch_single outcome u)) acc)
      = if key ∈ urls then some (fetchValue outcome key) else dictLookup key acc := by
  induction urls generalizing acc with
  | nil => simp
  | cons u rest ih =>
    rw [List.foldl_cons, ih]
    by_cases hmem : key ∈ rest
    · simp [hmem]
    · rw [dictLookup_dictInsert, fetch_single_fst]
      by_cases hu : u = key
      · subst hu
        simp [hmem, fetchValue]
      · have hku : ¬ key = u := fun hh => hu hh.symm
        have hk : ¬ key ∈ u :: rest := by simp [List.mem_cons, hmem, hku]
        simp [hmem, hu, hk]

theorem dictKeys_fetch_fold_nodup (outcome : String → Except String String) (urls : List String)
    (acc : List (String × String)) (h : (dictKeys acc).Nodup) :
    (dictKeys (urls.foldl (fun r u => dictInsert r (fetch_single outcome u)) acc)).Nodup := by
  induction urls generalizing acc with
  | nil => simpa
  | cons u rest ih =>
    rw [List.foldl_cons]
    exact ih _ (dictKeys_nodup_dictInsert _ _ h)

theorem dictLookup_isSome_iff (key : String) (d : List (String × String)) :
    (dictLookup key d).isSome = true ↔ key ∈ dictKeys d := by
  induction d with
  | nil => simp [dictLookup, dictKeys]
  | cons p rest ih =>
    obtain ⟨k, v⟩ := p
    by_cases hk : k = key
    · subst hk
      simp [dictLookup, dictKeys]
    · have hkk : ¬ key = k := fun hh => hk hh.symm
      simp [dictLookup, dictKeys, hk, hkk, ih]

/-- C5: the concurrent fetch returns exactly one entry per distinct input URL
(its key list has no duplicates and contains exactly the input URLs); a
per-URL failure — timeout included — appears as the string value
`"Error: " ++ str(e)` for that URL's entry instead of propagating, a success
as the decoded body; and the whole call is a total function of its inputs
(`fetch_single` catches every exception, so no single URL's failure can
abort the batch or escape uncaught). -/
theorem fetch_multiple_urls_contract (outcome : String → Except String String)
    (urls : List String) (u : String) :
    ((dictKeys (fetch_multiple_urls outcome urls)).Nodup)
    ∧ (u ∈ dictKeys (fetch_multiple_urls outcome urls) ↔ u ∈ urls)
    ∧ (dictLookup u (fetch_multiple_urls outcome urls)
        = if u ∈ urls then some (fetchValue outcome u) else none)
    ∧ (∀ e, u ∈ urls → outcome u = Except.error e →
        dictLookup u (fetch_multiple_urls outcome urls) = some ("Error: " ++ e))
    ∧ (∀ b, u ∈ urls → outcome u = Except.ok b →
        dictLookup u (fetch_multiple_urls outcome urls) = some b) := by
  have hlk : dictLookup u (fetch_multiple_urls outcome urls)
      = if u ∈ urls then some (fetchValue outcome u) else none := by
    unfold fetch_multiple_urls
    rw [dictLookup_fetch_fold]
    rfl
  refine ⟨?_, ?_, hlk, ?_, ?_⟩
  · exact dictKeys_fetch_fold_nodup outcome urls [] (by simp [dictKeys])
  · rw [← dictLookup_isSome_iff, hlk]
    by_cases hm : u ∈ urls <;> simp [hm]
  · intro e hm he
    rw [hlk, if_pos hm]
    simp [fetchValue, fetch_single, he]
  · intro b hm hb
    rw [hlk, if_pos hm]
    simp [fetchValue, fetch_single, hb]

/-- Witness for `fetch_multiple_urls_contract`: a two-URL batch where `"B"`
times out yields exactly two entries, `"B"` mapping to an error string and
`"A"` to its body. -/
theorem fetch_multiple_urls_contract_witness :
    dictLookup "B" (fetch_multiple_urls
        (fun v => if v = "B" then Except.error "timeout" else Except.ok "body-A") ["A", "B"])
      = some ("Error: " ++ "timeout")
    ∧ dictLookup "A" (fetch_multiple_urls
        (fun v => if v = "B" then Except.error "timeout" else Except.ok "body-A") ["A", "B"])
      = some "body-A"
    ∧ (dictKeys (fetch_multiple_urls
        (fun v => if v = "B" then Except.error "timeout" else Except.ok "body-A") ["A", "B"])).Nodup := by
  refine ⟨?_, ?_, ?_⟩
  · exact (fetch_multiple_urls_contract _ ["A", "B"] "B").2.2.2.1 "timeout" (by decide) rfl
  · exact (fetch_multiple_urls_contract _ ["A", "B"] "A").2.2.2.2 "body-A" (by decide) rfl
  · exact (fetch_multiple_urls_contract
      (fun v => if v = "B" then Except.error "timeout" else Except.ok "body-A") ["A", "B"] "A").1

theorem replaceGo_of_count_zero (pat rep : List Char) :
    ∀ (s : List Char), countGo pat 0 s = 0 → replaceGo pat rep 0 s = s := by
  intro s
  induction s with
  | nil => intro _; rfl
  | cons c cs ih =>
    intro hc
    simp only [countGo] at hc
    simp only [replaceGo]
    by_cases hp : listStartsWith pat (c :: cs) = true
    · rw [if_pos hp] at hc
      omega
    · rw [if_neg hp] at hc
      rw [if_neg hp, ih hc]

theorem pyReplace_of_count_zero (s pat rep : String) (h : pyCount s pat = 0) :
    pyReplace s pat rep = s := by
  unfold pyCount at h
  by_cases hp : pat.data = []
  · rw [if_pos hp] at h
    omega
  · rw [if_neg hp] at h
    unfold pyReplace
    rw [if_neg hp, replaceGo_of_count_zero pat.data rep.data s.data h]

/-- C8: `replace_in_document` performs Python's literal (non-regex) substring
replacement across the whole content — the current document's content becomes
`pyReplace content find rep` (`str.replace`); when the find string does not
occur (`pyCount content find = 0`) the call returns the store unchanged with
count 0; when the content changes, the reported count is `str.count`, the
number of non-overlapping occurrences replaced; when the replacement leaves
the content identical the count reported is 0; and on the spec's example,
replacing "foo" with "bar" in "foo foo baz" yields "bar bar baz" and count 2. -/
theorem replace_contract (s : Store) (ft rt : String) :
    (Option.map (fun d => d.content) (get_current_document ((replace_in_document s ft rt).1))
      = Option.map (fun d => pyReplace d.content ft rt) (get_current_document s))
    ∧ (∀ d, get_current_document s = some d → pyCount d.content ft = 0 →
        replace_in_document s ft rt = (s, 0))
    ∧ (∀ d, get_current_document s = some d → pyReplace d.content ft rt ≠ d.content →
        (replace_in_document s ft rt).2 = pyCount d.content ft)
    ∧ (∀ d, get_current_document s = some d → pyReplace d.content ft rt = d.content →
        (replace_in_document s ft rt).2 = 0)
    ∧ Option.map (fun d => d.content)
        (get_current_document ((replace_in_document exampleReplaceStore "foo" "bar").1))
      = some "bar bar baz"
    ∧ (replace_in_document exampleReplaceStore "foo" "bar").2 = 2 := by
  refine ⟨?_, ?_, ?_, ?_, by decide, by decide⟩
  · rcases replace_in_document_cases s ft rt with ⟨hc, hall⟩ | ⟨d, hg, hne, hc⟩
    · rw [hc]
      cases hg : get_current_document s with
      | none => rfl
      | some d => simp [hall d hg]
    · rw [hc]
      have hlen := currentNat_lt_of_get s d hg
      rw [show ((({ s with documents := s.documents.set (currentNat s) ({ d with content := pyReplace d.content ft rt, modified := true }) }, pyCount d.content ft) : Store × Nat)).1 = { s with documents := s.documents.set (currentNat s) ({ d with content := pyReplace d.content ft rt, modified := true }) } from rfl]
      rw [get_current_set_docs s _ hlen, hg]
      simp
  · intro d hd hcnt
    have hrep := pyReplace_of_count_zero d.content ft rt hcnt
    rcases replace_in_document_cases s ft rt with ⟨hc, _⟩ | ⟨d2, hg2, hne, _⟩
    · exact hc
    · rw [hd] at hg2
      injection hg2 with hg2
      rw [hg2] at hrep
      exact absurd hrep hne
  · intro d hd hne
    rcases replace_in_document_cases s ft rt with ⟨_, hall⟩ | ⟨d2, hg2, _, hc⟩
    · exact absurd (hall d hd) hne
    · rw [hd] at hg2
      injection hg2 with hg2
      rw [hc, ← hg2]
  · intro d hd hrep
    rcases replace_in_document_cases s ft rt with ⟨hc, _⟩ | ⟨d2, hg2, hne, _⟩
    · rw [hc]
    · rw [hd] at hg2
      injection hg2 with hg2
      rw [hg2] at hrep
      exact absurd hrep hne

/-- Witness for `replace_contract`: replacing an absent string leaves the
example store unchanged with count 0. -/
theorem replace_contract_witness :
    replace_in_document exampleReplaceStore "zzz" "qq" = (exampleReplaceStore, 0) :=
  (replace_contract exampleReplaceStore "zzz" "qq").2.1
    (mkDocument id "doc" "foo foo baz" none) (by decide) (by decide)

theorem list_map_eq_self {α : Type} (l : List α) (f : α → α) (h : ∀ x ∈ l, f x = x) :
    l.map f = l := by
  induction l with
  | nil => rfl
  | cons c cs ih =>
    simp only [List.map_cons, h c (List.mem_cons_self c cs)]
    rw [ih (fun x hx => h x (List.mem_cons_of_mem c hx))]

theorem char_toNat_ofNat_of_lt (n : Nat) (h : n < 55296) : (Char.ofNat n).toNat = n := by
  unfold Char.ofNat
  rw [dif_pos (Or.inl h)]
  simp [Char.ofNatAux, Char.toNat, UInt32.toNat, BitVec.toNat_ofNatLt]

theorem pyIsLowerCode_iff (n : Nat) : pyIsLowerCode n = true ↔
    (97 ≤ n ∧ n ≤ 122) ∨ n = 170 ∨ n = 181 ∨ n = 186 ∨
    (223 ≤ n ∧ n ≤ 246) ∨ (248 ≤ n ∧ n ≤ 255) := by
  unfold pyIsLowerCode
  simp only [Bool.or_eq_true, Bool.and_eq_true, decide_eq_true_eq, beq_iff_eq]
  omega

theorem pyIsUpperCode_iff (n : Nat) : pyIsUpperCode n = true ↔
    (65 ≤ n ∧ n ≤ 90) ∨ (192 ≤ n ∧ n ≤ 214) ∨ (216 ≤ n ∧ n ≤ 222) := by
  unfold pyIsUpperCode
  simp only [Bool.or_eq_true, Bool.and_eq_true, decide_eq_true_eq, beq_iff_eq]
  omega

theorem caesar_roundtrip_char (shift : Nat) (c : Char)
    (hc : c.toNat < 128) :
    caesar_unshift_char shift (caesar_shift_char shift c) = c := by
  unfold caesar_shift_char caesar_unshift_char
  by_cases hl : pyIsLowerCode c.toNat = true
  · have hlb : 97 ≤ c.toNat ∧ c.toNat ≤ 122 := by
      rcases (pyIsLowerCode_iff c.toNat).mp hl with h | h | h | h | h | h <;> omega
    rw [if_pos hl]
    have hmlt : (c.toNat - 97 + shift) % 26 < 26 := Nat.mod_lt _ (by omega)
    have hmv : (Char.ofNat ((c.toNat - 97 + shift) % 26 + 97)).toNat
        = (c.toNat - 97 + shift) % 26 + 97 :=
      char_toNat_ofNat_of_lt _ (by omega)
    have hml : pyIsLowerCode (Char.ofNat ((c.toNat - 97 + shift) % 26 + 97)).toNat = true := by
      rw [hmv, pyIsLowerCode_iff]
      omega
    rw [if_pos hml, hmv]
    rw [show ((((((c.toNat - 97 + shift) % 26 + 97 : Nat) : Int)) - 97 - (shift : Int)) % 26 + 97).toNat = c.toNat by omega]
    exact Char.ofNat_toNat c
  · by_cases hu : pyIsUpperCode c.toNat = true
    · have hub : 65 ≤ c.toNat ∧ c.toNat ≤ 90 := by
        rcases (pyIsUpperCode_iff c.toNat).mp hu with h | h | h <;> omega
      rw [if_neg hl, if_pos hu]
      have hmlt : (c.toNat - 65 + shift) % 26 < 26 := Nat.mod_lt _ (by omega)
      have hmv : (Char.ofNat ((c.toNat - 65 + shift) % 26 + 65)).toNat
          = (c.toNat - 65 + shift) % 26 + 65 :=
        char_toNat_ofNat_of_lt _ (by omega)
      have hml2 : pyIsLowerCode (Char.ofNat ((c.toNat - 65 + shift) % 26 + 65)).toNat = false := by
        rw [hmv]
        rw [show (pyIsLowerCode ((c.toNat - 65 + shift) % 26 + 65) = false) = ¬ (pyIsLowerCode ((c.toNat - 65 + shift) % 26 + 65) = true) by simp]
        rw [pyIsLowerCode_iff]
        omega
      have hmu : pyIsUpperCode (Char.ofNat ((c.toNat - 65 + shift) % 26 + 65)).toNat = true := by
        rw [hmv, pyIsUpperCode_iff]
        omega
      rw [if_neg (by simp [hml2]), if_pos hmu, hmv]
      rw [show ((((((c.toNat - 65 + shift) % 26 + 65 : Nat) : Int)) - 65 - (shift : Int)) % 26 + 65).toNat = c.toNat by omega]
      exact Char.ofNat_toNat c
    · rw [if_neg hl, if_neg hu, if_neg hl, if_neg hu]

/-- C6 as stated ("for all text") is false on the code: Python's `islower` is
Unicode-aware, so the shift collapses the non-ASCII letter é (U+00E9) into
`a`-`z`, and decrypting the encryption of `"é"` under the empty password
returns `"g"`.  The transport oracle is instantiated with the identity, which
satisfies the decode-encode contract (third conjunct), so the loss is caused
by the shift itself, exactly as with the real base64 transport. -/
theorem cipher_non_ascii_cex :
    decrypt_content some (encrypt_content id "é" "") "" = "g"
    ∧ ("g" : String) ≠ "é"
    ∧ ∀ t : String, (some (id t) : Option String) = some t := by
  refine ⟨by decide, by decide, fun t => rfl⟩

/-- C6 (amended): provided the transport decode inverts the transport encode,
decrypt ∘ encrypt is the identity for every password and every text whose
characters are all ASCII (the shift is applied exactly to the characters
Python classifies as cased, and on ASCII it is a bijection of `a`-`z` and of
`A`-`Z`); and decoding malformed input — transport decode raising — returns
the sentinel `"[Decryption failed]"` instead of propagating the exception. -/
theorem cipher_roundtrip_ascii (b64encode : String → String)
    (b64decode : String → Option String) (content password g : String) :
    ((∀ t, b64decode (b64encode t) = some t) →
      (∀ c ∈ content.data, c.toNat < 128) →
      decrypt_content b64decode (encrypt_content b64encode content password) password = content)
    ∧ (b64decode g = none →
      decrypt_content b64decode g password = "[Decryption failed]") := by
  constructor
  · intro hdec hascii
    unfold encrypt_content decrypt_content
    rw [hdec]
    show String.mk ((content.data.map (caesar_shift_char (passwordShift password))).map (caesar_unshift_char (passwordShift password))) = content
    rw [List.map_map]
    have hmap : content.data.map
        (caesar_unshift_char (passwordShift password) ∘ caesar_shift_char (passwordShift password))
        = content.data := by
      apply list_map_eq_self
      intro c hcmem
      exact caesar_roundtrip_char (passwordShift password) c (hascii c hcmem)
    rw [hmap]
  · intro hg
    unfold decrypt_content
    rw [hg]

/-- Witness for `cipher_roundtrip_ascii`: a concrete ASCII roundtrip and a
concrete malformed decode returning the sentinel. -/
theorem cipher_roundtrip_ascii_witness :
    decrypt_content some (encrypt_content id "Hello, World!" "abc") "abc" = "Hello, World!"
    ∧ decrypt_content (fun _ => none) "garbage" "pw" = "[Decryption failed]" := by
  constructor
  · exact (cipher_roundtrip_ascii id some "Hello, World!" "abc" "g").1 (fun t => rfl) (by decide)
  · exact (cipher_roundtrip_ascii id (fun _ => none) "x" "pw" "garbage").2 rfl

theorem pickBest_cons (x y : String × Nat) (ys : List (String × Nat)) :
    pickBest x (y :: ys) = pickBest (if y.2 > x.2 then y else x) ys := rfl

theorem maxValue_cons (x y : String × Nat) (ys : List (String × Nat)) :
    maxValue x (y :: ys) = maxValue (if y.2 > x.2 then y else x) ys := by
  unfold maxValue
  rw [List.foldl_cons]
  congr 1
  split
  next h => exact Nat.max_eq_right (Nat.le_of_lt h)
  next h => exact Nat.max_eq_left (Nat.le_of_not_lt h)

theorem maxValue_eq_pickBest (xs : List (String × Nat)) : ∀ x,
    maxValue x xs = (pickBest x xs).2 := by
  induction xs with
  | nil => intro x; rfl
  | cons y ys ih =>
    intro x
    rw [maxValue_cons, pickBest_cons, ih]

theorem foldl_max_eq (xs : List (String × Nat)) : ∀ (a : Nat),
    xs.foldl (fun m y => Nat.max m y.2) a
      = Nat.max a ((xs.map (fun p => p.2)).foldr Nat.max 0) := by
  induction xs with
  | nil => intro a; simp
  | cons y ys ih =>
    intro a
    rw [List.foldl_cons, ih, List.map_cons, List.foldr_cons]
    simp only [Nat.max_def]
    split_ifs <;> omega

theorem maxValue_eq_foldr (x : String × Nat) (xs : List (String × Nat)) :
    maxValue x xs = (((x :: xs).map (fun p => p.2)).foldr Nat.max 0) := by
  rw [List.map_cons, List.foldr_cons, ← foldl_max_eq]
  rfl

theorem pickBest_spec (xs : List (String × Nat)) : ∀ (x : String × Nat),
    pickBest x xs ∈ x :: xs
    ∧ (∀ y ∈ x :: xs, y.2 ≤ (pickBest x xs).2)
    ∧ (x :: xs).find? (fun y => y.2 == (pickBest x xs).2) = some (pickBest x xs) := by
  induction xs with
  | nil =>
    intro x
    refine ⟨List.mem_singleton.mpr rfl, ?_, ?_⟩
    · intro y hy
      rcases List.mem_singleton.mp hy with rfl
      exact Nat.le_refl _
    · exact List.find?_cons_of_pos [] (by simp [pickBest])
  | cons y ys ih =>
    intro x
    rcases ih (if y.2 > x.2 then y else x) with ⟨hmem, hbound, hfind⟩
    rw [pickBest_cons]
    set z := if y.2 > x.2 then y else x with hz
    have hxz : x.2 ≤ z.2 := by rw [hz]; split <;> omega
    have hyz : y.2 ≤ z.2 := by rw [hz]; split <;> omega
    have hzb : z.2 ≤ (pickBest z ys).2 := hbound z (List.mem_cons_self z ys)
    refine ⟨?_, ?_, ?_⟩
    · rcases List.mem_cons.mp hmem with hh | hh
      · rw [hh, hz]
        split
        · exact List.mem_cons_of_mem x (List.mem_cons_self y ys)
        · exact List.mem_cons_self x (y :: ys)
      · exact List.mem_cons_of_mem x (List.mem_cons_of_mem y hh)
    · intro w hw
      rcases List.mem_cons.mp hw with rfl | hw2
      · exact Nat.le_trans hxz hzb
      rcases List.mem_cons.mp hw2 with rfl | hw3
      · exact Nat.le_trans hyz hzb
      · exact hbound w (List.mem_cons_of_mem z hw3)
    · by_cases hxy : y.2 > x.2
      · have hzy : z = y := by rw [hz, if_pos hxy]
        rw [hzy] at hbound hfind ⊢
        have hxlt : x.2 < (pickBest y ys).2 :=
          Nat.lt_of_lt_of_le hxy (hbound y (List.mem_cons_self y ys))
        rw [List.find?_cons_of_neg _ (by simp; omega)]
        exact hfind
      · have hzx : z = x := by rw [hz, if_neg hxy]
        rw [hzx] at hbound hfind ⊢
        by_cases hxb : x.2 = (pickBest x ys).2
        · rw [List.find?_cons_of_pos _ (by simp [hxb])]
          rw [List.find?_cons_of_pos _ (by simp [hxb])] at hfind
          exact hfind
        · have hxlt : x.2 < (pickBest x ys).2 :=
            Nat.lt_of_le_of_ne (hbound x (List.mem_cons_self x ys)) hxb
          have hylt : y.2 < (pickBest x ys).2 := by omega
          rw [List.find?_cons_of_neg _ (by simp; omega),
            List.find?_cons_of_neg _ (by simp; omega)]
          rw [List.find?_cons_of_neg _ (by simp; omega)] at hfind
          exact hfind

theorem scores_fst_ne_text (search : String → String → Bool) (lower : String → String)
    (content : String) (p : String × Nat)
    (hp : p ∈ language_scores search lower content) : p.1 ≠ "text" := by
  unfold language_scores at hp
  rcases List.mem_map.mp hp with ⟨q, hq, rfl⟩
  have hall : ∀ q2 ∈ language_patterns, q2.1 ≠ "text" := by decide
  exact hall q hq

/-- C7: `detect_language` is deterministic — in the embedding it is a pure
function of the content and the two oracles (Python's `re.search` and
`str.lower` are themselves deterministic), so repeated calls agree; it
returns the generic `"text"` tag exactly when every language's score is
zero; and otherwise it refines `detectLanguageSpec`, the spec's description:
the first entry of the fixed, insertion-ordered pattern table achieving the
maximal score wins (Python's `max` keeps the first maximal item on ties). -/
theorem detect_language_contract (search : String → String → Bool)
    (lower : String → String) (content : String) :
    ((List.replicate 3 content).map (detect_language search lower)
      = List.replicate 3 (detect_language search lower content))
    ∧ (detect_language search lower content = "text" ↔
        ∀ p ∈ language_scores search lower content, p.2 = 0)
    ∧ detect_language search lower content = detectLanguageSpec search lower content := by
  refine ⟨by simp, ?_, ?_⟩
  · unfold detect_language
    cases hsc : language_scores search lower content with
    | nil => simp
    | cons x xs =>
      rcases pickBest_spec xs x with ⟨hmem, hbound, _⟩
      show ((if maxValue x xs > 0 then (pickBest x xs).1 else "text") = "text")
        ↔ ∀ p ∈ x :: xs, p.2 = 0
      by_cases hpos : maxValue x xs > 0
      · rw [if_pos hpos]
        constructor
        · intro htext
          have := scores_fst_ne_text search lower content (pickBest x xs) (hsc ▸ hmem)
          exact absurd htext this
        · intro hzero
          have h0 : (pickBest x xs).2 = 0 := hzero (pickBest x xs) (hsc ▸ hmem)
          rw [maxValue_eq_pickBest] at hpos
          omega
      · rw [if_neg hpos]
        rw [maxValue_eq_pickBest] at hpos
        constructor
        · intro _ p hp
          have := hbound p hp
          omega
        · intro _
          rfl
  · unfold detect_language detectLanguageSpec
    cases hsc : language_scores search lower content with
    | nil => simp
    | cons x xs =>
      rcases pickBest_spec xs x with ⟨hmem, hbound, hfind⟩
      show (if maxValue x xs > 0 then (pickBest x xs).1 else "text")
        = (if ((x :: xs).map (fun p => p.2)).foldr Nat.max 0 = 0 then "text"
           else
             match (x :: xs).find?
                 (fun p => p.2 == ((x :: xs).map (fun p => p.2)).foldr Nat.max 0) with
             | some p => p.1
             | none => "text")
      rw [← maxValue_eq_foldr]
      by_cases hpos : maxValue x xs > 0
      · rw [if_pos hpos, if_neg (by omega)]
        rw [maxValue_eq_pickBest, hfind]
      · rw [if_neg hpos, if_pos (by omega)]

end CopyApp
